import Mathlib

/-!
Verification of the LocoHFT mean-reversion signal engine
(`src/python/strategy.py`, class `LocoHFTStrategy`).

Prices, capital and sizes are embedded as exact rationals; the standard
deviation (`math.sqrt`) and the z-score are real numbers.  Python's
mutable dictionaries `positions` / `price_history` are embedded as total
functions with the dictionaries' default values (0 and the empty list),
which is observationally equivalent to `dict.get(symbol, 0)` and the lazy
`price_history[symbol] = []` initialisation.  The Python method
`on_market_data` returns a signal dict or `None`; `None` covers two
distinct branches of the code (window shorter than the lookback, and
in-band price), so the embedding returns a tagged `Outcome` that records
which branch produced the result, together with the updated engine state.
-/

namespace LocoHFT

/-- A market-data tick, the four arguments of `on_market_data`
(`symbol, price, volume, timestamp`, strategy.py line 26).  `volume` and
`timestamp` are accepted but never read by the strategy body. -/
structure Tick where
  symbol : String
  price : ℚ
  volume : ℚ
  timestamp : ℤ

/-- The `Signal` dataclass (strategy.py lines 11–17).  The `metadata`
dict always holds exactly the two keys `"sma"` and `"z_score"`
(lines 54 and 59), embedded here as the two fields `sma` and `z_score`. -/
structure Signal where
  action : String
  size : ℚ
  price : ℚ
  confidence : ℚ
  sma : ℚ
  z_score : ℝ

/-- Result of one `on_market_data` call.  The Python code returns `None`
both from the `len < lookback` early return (line 39) and from the final
fall-through (line 63); the tag records which branch was taken.  The
actual Python return value is `Outcome.toReturn`. -/
inductive Outcome where
  | insufficient
  | noSignal
  | signal (s : Signal)

/-- The Python return value (`Optional[dict]`): both non-signal branches
collapse to `None`. -/
def Outcome.toReturn : Outcome → Option Signal
  | .insufficient => none
  | .noSignal => none
  | .signal s => some s

/-- State of `LocoHFTStrategy` (strategy.py lines 20–24): `capital`,
`positions` dict (default 0), `price_history` dict (default `[]`),
and `lookback`. -/
structure LocoHFTStrategy where
  capital : ℚ
  positions : String → ℤ
  price_history : String → List ℚ
  lookback : ℕ

/-- `__init__` (strategy.py lines 20–24): stores `capital` (the Python
default argument is `100000.0`), empty dicts, and sets
`self.lookback = 20`.  `lookback` is not a constructor parameter. -/
def init (capital : ℚ) : LocoHFTStrategy :=
  { capital := capital
    positions := fun _ => 0
    price_history := fun _ => []
    lookback := 20 }

/-- The module-level global `strategy = LocoHFTStrategy()` (line 79),
built with the default capital. -/
def strategy : LocoHFTStrategy := init 100000

/-- `sma = sum(prices) / len(prices)` (line 43). -/
def sma (prices : List ℚ) : ℚ := prices.sum / (prices.length : ℚ)

/-- `variance = sum((p - sma) ** 2 for p in prices) / len(prices)`
(line 44): population variance, divisor `len(prices)`. -/
def variance (prices : List ℚ) : ℚ :=
  (prices.map (fun p => (p - sma prices) ^ 2)).sum / (prices.length : ℚ)

/-- `std = math.sqrt(variance)` (line 45). -/
noncomputable def std (prices : List ℚ) : ℝ :=
  Real.sqrt ((variance prices : ℝ))

/-- `upper = sma + 2 * std` (line 47). -/
noncomputable def upper (prices : List ℚ) : ℝ := (sma prices : ℝ) + 2 * std prices

/-- `lower = sma - 2 * std` (line 48). -/
noncomputable def lower (prices : List ℚ) : ℝ := (sma prices : ℝ) - 2 * std prices

/-- `z_score = (price - sma) / std` (lines 54 and 59). -/
noncomputable def zScore (prices : List ℚ) (price : ℚ) : ℝ :=
  ((price : ℝ) - (sma prices : ℝ)) / std prices

/-- The guard `price < lower` of line 53. -/
def belowLower (prices : List ℚ) (price : ℚ) : Prop :=
  (price : ℝ) < lower prices

/-- The guard `price > upper` of line 58. -/
def aboveUpper (prices : List ℚ) (price : ℚ) : Prop :=
  upper prices < (price : ℝ)

/-- Lines 29–35: the symbol's window after appending `price` and, when
the length then exceeds `lookback`, evicting the oldest element
(`pop(0)`, i.e. `tail`). -/
def nextWindow (st : LocoHFTStrategy) (symbol : String) (price : ℚ) : List ℚ :=
  let appended := st.price_history symbol ++ [price]
  if st.lookback < appended.length then appended.tail else appended

section

attribute [local instance] Classical.propDecidable

/-- `on_market_data` (strategy.py lines 26–63), returning the updated
engine state together with the tagged outcome:
window update (lines 29–35), the `len < lookback → None` early return
(lines 37–39), Bollinger statistics over the post-append window
(lines 41–48), and the mean-reversion branches (lines 50–63). -/
noncomputable def on_market_data (st : LocoHFTStrategy) (symbol : String) (price : ℚ)
    (_volume : ℚ) (_timestamp : ℤ) : LocoHFTStrategy × Outcome :=
  let hist := nextWindow st symbol price
  let st1 : LocoHFTStrategy :=
    { st with price_history := Function.update st.price_history symbol hist }
  if hist.length < st.lookback then
    (st1, .insufficient)
  else
    let current_pos := st1.positions symbol
    if belowLower hist price ∧ current_pos ≤ 0 then
      ({ st1 with positions := Function.update st1.positions symbol (current_pos + 100) },
       .signal { action := "BUY", size := 100, price := price, confidence := 8/10,
                 sma := sma hist, z_score := zScore hist price })
    else if aboveUpper hist price ∧ 0 ≤ current_pos then
      ({ st1 with positions := Function.update st1.positions symbol (current_pos - 100) },
       .signal { action := "SELL", size := 100, price := price, confidence := 8/10,
                 sma := sma hist, z_score := zScore hist price })
    else
      (st1, .noSignal)

end

/-- `calculate_portfolio_weights` (strategy.py lines 65–69):
`n = len(returns_data); return [1.0 / n] * n`.  For `n = 0` Python
evaluates `1.0 / 0` and raises `ZeroDivisionError`, embedded as an
`Except.error`. -/
def calculate_portfolio_weights (_st : LocoHFTStrategy) (returns_data : List (List ℚ)) :
    Except String (List ℚ) :=
  let n := returns_data.length
  if n = 0 then .error "ZeroDivisionError"
  else .ok (List.replicate n (1 / (n : ℚ)))

/-- `on_risk_update` (strategy.py lines 71–76): returns `False` when
`var_95 > self.capital * 0.02`, else `True`; mutates nothing (the state
is returned unchanged to make that explicit).  The `print` on line 74 is
console I/O with no effect on the engine. -/
def on_risk_update (st : LocoHFTStrategy) (var_95 : ℚ) (_exposure : ℚ) :
    LocoHFTStrategy × Bool :=
  if st.capital * (2/100) < var_95 then (st, false) else (st, true)

/-- Feeding a sequence of ticks through `on_market_data`, keeping the
final engine state. -/
noncomputable def run (st : LocoHFTStrategy) (ts : List Tick) : LocoHFTStrategy :=
  ts.foldl (fun s t => (on_market_data s t.symbol t.price t.volume t.timestamp).1) st

/-- Feeding a sequence of ticks, collecting the outcome of every call. -/
noncomputable def runOutcomes (st : LocoHFTStrategy) : List Tick → LocoHFTStrategy × List Outcome
  | [] => (st, [])
  | t :: ts =>
    let r := on_market_data st t.symbol t.price t.volume t.timestamp
    let rest := runOutcomes r.1 ts
    (rest.1, r.2 :: rest.2)

/-- The prices of the ticks addressed to symbol `s`, in arrival order. -/
def pricesOf (s : String) (ts : List Tick) : List ℚ :=
  (ts.filter (fun t => t.symbol == s)).map Tick.price

/-- The most recent `n` elements of a list, in order. -/
def lastN (n : ℕ) (l : List ℚ) : List ℚ := l.drop (l.length - n)

/-- Concrete engine state: flat position, five equal prices stored,
lookback 6.  The next tick completes a 6-price window. -/
def stC1 : LocoHFTStrategy :=
  { capital := 100000
    positions := fun _ => 0
    price_history := fun _ => [100, 100, 100, 100, 100]
    lookback := 6 }

/-- Concrete engine state: LONG position (+100), five equal prices
stored, lookback 6. -/
def stX : LocoHFTStrategy :=
  { capital := 100000
    positions := fun _ => 100
    price_history := fun _ => [100, 100, 100, 100, 100]
    lookback := 6 }

/-- Concrete engine state: SHORT position (−100), two equal prices
stored, lookback 3.  A third identical tick gives a full window with
zero variance. -/
def stW : LocoHFTStrategy :=
  { capital := 100000
    positions := fun _ => -100
    price_history := fun _ => [7, 7]
    lookback := 3 }

/-- Fresh engine except that the `lookback` field holds 3 (the
constructor itself always sets 20; in the Python reference this state is
only reachable by assigning `strategy.lookback = 3` after
construction). -/
def stY0 : LocoHFTStrategy :=
  { capital := 100000
    positions := fun _ => 0
    price_history := fun _ => []
    lookback := 3 }

/-- State of `stY0` after the tick (Y, 100). -/
def stY1 : LocoHFTStrategy :=
  { stY0 with price_history := Function.update stY0.price_history "Y" [100] }

/-- State of `stY0` after the ticks (Y, 100), (Y, 102). -/
def stY2 : LocoHFTStrategy :=
  { stY1 with price_history := Function.update stY1.price_history "Y" [100, 102] }

/-- State of `stY0` after the ticks (Y, 100), (Y, 102), (Y, 98). -/
def stY3 : LocoHFTStrategy :=
  { stY2 with price_history := Function.update stY2.price_history "Y" [100, 102, 98] }

/-- State of `stY0` after all four ticks of `ticksY`: the oldest price
100 has been evicted. -/
def stY4 : LocoHFTStrategy :=
  { stY3 with price_history := Function.update stY3.price_history "Y" [102, 98, 80] }

/-- The price sequence [100, 102, 98, 80] for symbol "Y" from the
spec's worked example. -/
def ticksY : List Tick :=
  [{ symbol := "Y", price := 100, volume := 0, timestamp := 0 },
   { symbol := "Y", price := 102, volume := 0, timestamp := 1 },
   { symbol := "Y", price := 98, volume := 0, timestamp := 2 },
   { symbol := "Y", price := 80, volume := 0, timestamp := 3 }]


/-- The population variance is a quotient of non-negative terms. -/
theorem variance_nonneg (prices : List ℚ) : 0 ≤ variance prices := by
  unfold variance
  apply div_nonneg
  · apply List.sum_nonneg
    intro x hx
    simp only [List.mem_map] at hx
    obtain ⟨p, _, rfl⟩ := hx
    positivity
  · exact_mod_cast Nat.zero_le _

/-- `std` is the non-negative square root: squaring it recovers the
variance. -/
theorem sq_std (prices : List ℚ) : std prices ^ 2 = (variance prices : ℝ) := by
  unfold std
  rw [Real.sq_sqrt]
  exact_mod_cast variance_nonneg prices

theorem std_nonneg (prices : List ℚ) : 0 ≤ std prices := Real.sqrt_nonneg _

/-- `std = 0` exactly when the variance vanishes. -/
theorem std_eq_zero_iff (prices : List ℚ) : std prices = 0 ↔ variance prices = 0 := by
  unfold std
  rw [Real.sqrt_eq_zero']
  constructor
  · intro h
    have := variance_nonneg prices
    have h' : (variance prices : ℝ) ≤ 0 := h
    exact le_antisymm (by exact_mod_cast h') this
  · intro h
    rw [h]
    simp

/-- `std > 0` exactly when the variance is positive. -/
theorem std_pos_iff (prices : List ℚ) : 0 < std prices ↔ 0 < variance prices := by
  unfold std
  rw [Real.sqrt_pos]
  exact ⟨fun h => by exact_mod_cast h, fun h => by exact_mod_cast h⟩

/-- The guard `price < lower` in terms of rational arithmetic only. -/
theorem belowLower_iff (prices : List ℚ) (price : ℚ) :
    belowLower prices price ↔
      0 < sma prices - price ∧ variance prices < ((sma prices - price) / 2) ^ 2 := by
  unfold belowLower lower std
  constructor
  · intro h
    have hs0 := Real.sqrt_nonneg ((variance prices : ℝ))
    have h1' : (0 : ℝ) < (sma prices : ℝ) - (price : ℝ) := by linarith
    have hs : Real.sqrt ((variance prices : ℝ)) <
        ((sma prices : ℝ) - (price : ℝ)) / 2 := by linarith
    have h2' := (Real.sqrt_lt' (by linarith)).mp hs
    constructor
    · exact_mod_cast h1'
    · exact_mod_cast h2'
  · rintro ⟨h1, h2⟩
    have h1' : (0 : ℝ) < (sma prices : ℝ) - (price : ℝ) := by exact_mod_cast h1
    have h2' : ((variance prices : ℝ)) < (((sma prices : ℝ) - (price : ℝ)) / 2) ^ 2 := by
      exact_mod_cast h2
    have hs := (Real.sqrt_lt'
      (show (0 : ℝ) < ((sma prices : ℝ) - (price : ℝ)) / 2 by linarith)).mpr h2'
    linarith

/-- The guard `price > upper` in terms of rational arithmetic only. -/
theorem aboveUpper_iff (prices : List ℚ) (price : ℚ) :
    aboveUpper prices price ↔
      0 < price - sma prices ∧ variance prices < ((price - sma prices) / 2) ^ 2 := by
  unfold aboveUpper upper std
  constructor
  · intro h
    have hs0 := Real.sqrt_nonneg ((variance prices : ℝ))
    have h1' : (0 : ℝ) < (price : ℝ) - (sma prices : ℝ) := by linarith
    have hs : Real.sqrt ((variance prices : ℝ)) <
        ((price : ℝ) - (sma prices : ℝ)) / 2 := by linarith
    have h2' := (Real.sqrt_lt' (by linarith)).mp hs
    constructor
    · exact_mod_cast h1'
    · exact_mod_cast h2'
  · rintro ⟨h1, h2⟩
    have h1' : (0 : ℝ) < (price : ℝ) - (sma prices : ℝ) := by exact_mod_cast h1
    have h2' : ((variance prices : ℝ)) < (((price : ℝ) - (sma prices : ℝ)) / 2) ^ 2 := by
      exact_mod_cast h2
    have hs := (Real.sqrt_lt'
      (show (0 : ℝ) < ((price : ℝ) - (sma prices : ℝ)) / 2 by linarith)).mpr h2'
    linarith

/-- A price strictly below the lower band is never strictly above the
upper band: the bands are ordered `lower ≤ upper`. -/
theorem not_aboveUpper_of_belowLower (prices : List ℚ) (price : ℚ)
    (h : belowLower prices price) : ¬ aboveUpper prices price := by
  unfold belowLower lower at h
  unfold aboveUpper upper
  have := std_nonneg prices
  intro h'
  linarith

/-- A price strictly above the upper band is never strictly below the
lower band. -/
theorem not_belowLower_of_aboveUpper (prices : List ℚ) (price : ℚ)
    (h : aboveUpper prices price) : ¬ belowLower prices price := by
  unfold aboveUpper upper at h
  unfold belowLower lower
  have := std_nonneg prices
  intro h'
  linarith


/-- Evaluation of `on_market_data` when the window is still shorter than
the lookback (lines 37–39). -/
theorem omd_insufficient (st : LocoHFTStrategy) (s : String) (p v : ℚ) (t : ℤ)
    (h : (nextWindow st s p).length < st.lookback) :
    on_market_data st s p v t =
      ({ st with price_history := Function.update st.price_history s (nextWindow st s p) },
       .insufficient) := by
  simp only [on_market_data]
  rw [if_pos h]

/-- Evaluation of `on_market_data` on the BUY branch (lines 53–56). -/
theorem omd_buy (st : LocoHFTStrategy) (s : String) (p v : ℚ) (t : ℤ)
    (h1 : ¬ (nextWindow st s p).length < st.lookback)
    (h2 : belowLower (nextWindow st s p) p) (h3 : st.positions s ≤ 0) :
    on_market_data st s p v t =
      ({ st with
          price_history := Function.update st.price_history s (nextWindow st s p),
          positions := Function.update st.positions s (st.positions s + 100) },
       .signal { action := "BUY", size := 100, price := p, confidence := 8/10,
                 sma := sma (nextWindow st s p),
                 z_score := zScore (nextWindow st s p) p }) := by
  simp only [on_market_data]
  rw [if_neg h1, if_pos ⟨h2, h3⟩]

/-- Evaluation of `on_market_data` on the SELL branch (lines 58–61). -/
theorem omd_sell (st : LocoHFTStrategy) (s : String) (p v : ℚ) (t : ℤ)
    (h1 : ¬ (nextWindow st s p).length < st.lookback)
    (h2 : ¬ (belowLower (nextWindow st s p) p ∧ st.positions s ≤ 0))
    (h3 : aboveUpper (nextWindow st s p) p) (h4 : 0 ≤ st.positions s) :
    on_market_data st s p v t =
      ({ st with
          price_history := Function.update st.price_history s (nextWindow st s p),
          positions := Function.update st.positions s (st.positions s - 100) },
       .signal { action := "SELL", size := 100, price := p, confidence := 8/10,
                 sma := sma (nextWindow st s p),
                 z_score := zScore (nextWindow st s p) p }) := by
  simp only [on_market_data]
  rw [if_neg h1, if_neg h2, if_pos ⟨h3, h4⟩]

/-- Evaluation of `on_market_data` on the fall-through branch
(line 63): full window but neither trigger fires. -/
theorem omd_noSignal (st : LocoHFTStrategy) (s : String) (p v : ℚ) (t : ℤ)
    (h1 : ¬ (nextWindow st s p).length < st.lookback)
    (h2 : ¬ (belowLower (nextWindow st s p) p ∧ st.positions s ≤ 0))
    (h3 : ¬ (aboveUpper (nextWindow st s p) p ∧ 0 ≤ st.positions s)) :
    on_market_data st s p v t =
      ({ st with price_history := Function.update st.price_history s (nextWindow st s p) },
       .noSignal) := by
  simp only [on_market_data]
  rw [if_neg h1, if_neg h2, if_neg h3]

/-- One call never changes `lookback`. -/
theorem omd_lookback (st : LocoHFTStrategy) (s : String) (p v : ℚ) (t : ℤ) :
    (on_market_data st s p v t).1.lookback = st.lookback := by
  simp only [on_market_data]
  split_ifs <;> rfl

/-- One call never changes `capital`. -/
theorem omd_capital (st : LocoHFTStrategy) (s : String) (p v : ℚ) (t : ℤ) :
    (on_market_data st s p v t).1.capital = st.capital := by
  simp only [on_market_data]
  split_ifs <;> rfl

/-- After one call, the price history is the old one with the addressed
symbol's window replaced by `nextWindow` — on every branch. -/
theorem omd_history (st : LocoHFTStrategy) (s : String) (p v : ℚ) (t : ℤ) :
    (on_market_data st s p v t).1.price_history =
      Function.update st.price_history s (nextWindow st s p) := by
  simp only [on_market_data]
  split_ifs <;> rfl

/-- After one call, any symbol's position is unchanged, or increased by
exactly 100 from a non-positive value, or decreased by exactly 100 from
a non-negative value. -/
theorem omd_positions_cases (st : LocoHFTStrategy) (s : String) (p v : ℚ) (t : ℤ)
    (s' : String) :
    (on_market_data st s p v t).1.positions s' = st.positions s' ∨
      ((on_market_data st s p v t).1.positions s' = st.positions s' + 100 ∧
        st.positions s' ≤ 0) ∨
      ((on_market_data st s p v t).1.positions s' = st.positions s' - 100 ∧
        0 ≤ st.positions s') := by
  simp only [on_market_data]
  split_ifs with h1 h2 h3
  · exact Or.inl rfl
  · by_cases hs : s' = s
    · subst hs
      refine Or.inr (Or.inl ⟨?_, h2.2⟩)
      simp [Function.update]
    · refine Or.inl ?_
      simp [Function.update, hs]
  · by_cases hs : s' = s
    · subst hs
      refine Or.inr (Or.inr ⟨?_, h3.2⟩)
      simp [Function.update]
    · refine Or.inl ?_
      simp [Function.update, hs]
  · exact Or.inl rfl



theorem pricesOf_cons (s : String) (t : Tick) (ts : List Tick) :
    pricesOf s (t :: ts) =
      if t.symbol = s then t.price :: pricesOf s ts else pricesOf s ts := by
  by_cases h : t.symbol = s <;> simp [pricesOf, List.filter_cons, h]

theorem lastN_length (n : ℕ) (l : List ℚ) : (lastN n l).length = min l.length n := by
  simp only [lastN, List.length_drop]
  omega

theorem nextWindow_lastN (st : LocoHFTStrategy) (s : String) (p : ℚ) (h : List ℚ)
    (hw : st.price_history s = lastN st.lookback h) :
    nextWindow st s p = lastN st.lookback (h ++ [p]) := by
  unfold nextWindow
  rw [hw]
  have hlen : (lastN st.lookback h).length = min h.length st.lookback :=
    lastN_length st.lookback h
  by_cases hL : st.lookback ≤ h.length
  · have hcond : st.lookback < (lastN st.lookback h ++ [p]).length := by
      simp only [List.length_append, List.length_cons, List.length_nil, hlen]
      omega
    rw [if_pos hcond]
    rcases Nat.eq_zero_or_pos st.lookback with h0 | h0
    · have hnil : lastN st.lookback h = [] := by
        apply List.eq_nil_of_length_eq_zero
        omega
      rw [hnil, h0]
      show ([p].tail : List ℚ) = lastN 0 (h ++ [p])
      simp only [List.tail_cons, lastN, Nat.sub_zero]
      rw [List.drop_length]
    · have hne : lastN st.lookback h ≠ [] := by
        intro hnil
        rw [hnil] at hlen
        simp at hlen
        omega
      rw [List.tail_append_singleton_of_ne_nil hne]
      unfold lastN
      rw [List.tail_drop]
      rw [List.drop_append_of_le_length
        (show (h ++ [p]).length - st.lookback ≤ h.length by
          simp only [List.length_append, List.length_cons, List.length_nil]; omega)]
      have harg : h.length - st.lookback + 1 = (h ++ [p]).length - st.lookback := by
        simp only [List.length_append, List.length_cons, List.length_nil]
        omega
      rw [harg]
  · have hcond : ¬ st.lookback < (lastN st.lookback h ++ [p]).length := by
      simp only [List.length_append, List.length_cons, List.length_nil, hlen]
      omega
    rw [if_neg hcond]
    have h1 : lastN st.lookback h = h := by
      unfold lastN
      rw [Nat.sub_eq_zero_of_le (le_of_not_le hL), List.drop_zero]
    have h2 : lastN st.lookback (h ++ [p]) = h ++ [p] := by
      unfold lastN
      rw [Nat.sub_eq_zero_of_le (by
        simp only [List.length_append, List.length_cons, List.length_nil]; omega),
        List.drop_zero]
    rw [h1, h2]


theorem run_history (ts : List Tick) :
    ∀ (st : LocoHFTStrategy) (H : String → List ℚ),
      (∀ u, st.price_history u = lastN st.lookback (H u)) →
      ∀ u, (run st ts).price_history u = lastN st.lookback (H u ++ pricesOf u ts) := by
  induction ts with
  | nil =>
    intro st H hH u
    simpa [pricesOf] using hH u
  | cons t ts ih =>
    intro st H hH u
    have hom := omd_history st t.symbol t.price t.volume t.timestamp
    have hlb := omd_lookback st t.symbol t.price t.volume t.timestamp
    have hH' : ∀ u',
        (on_market_data st t.symbol t.price t.volume t.timestamp).1.price_history u' =
          lastN (on_market_data st t.symbol t.price t.volume t.timestamp).1.lookback
            (if t.symbol = u' then H u' ++ [t.price] else H u') := by
      intro u'
      rw [hom, hlb]
      by_cases hs : t.symbol = u'
      · subst hs
        rw [if_pos rfl, Function.update_same]
        exact nextWindow_lastN st t.symbol t.price (H t.symbol) (hH t.symbol)
      · rw [if_neg hs, Function.update_noteq (fun hh => hs hh.symm)]
        exact hH u'
    have hrun : run st (t :: ts) =
        run (on_market_data st t.symbol t.price t.volume t.timestamp).1 ts := rfl
    rw [hrun]
    have hih := ih (on_market_data st t.symbol t.price t.volume t.timestamp).1
      (fun u' => if t.symbol = u' then H u' ++ [t.price] else H u') hH' u
    rw [hih, hlb, pricesOf_cons]
    by_cases hs : t.symbol = u
    · rw [if_pos hs, if_pos hs]
      simp
    · rw [if_neg hs, if_neg hs]

theorem run_positions_mem (ts : List Tick) :
    ∀ (st : LocoHFTStrategy) (u : String),
      st.positions u ∈ ({-100, 0, 100} : Set ℤ) →
      (run st ts).positions u ∈ ({-100, 0, 100} : Set ℤ) := by
  induction ts with
  | nil => intro st u h; exact h
  | cons t ts ih =>
    intro st u h
    have hrun : run st (t :: ts) =
        run (on_market_data st t.symbol t.price t.volume t.timestamp).1 ts := rfl
    rw [hrun]
    apply ih
    rcases omd_positions_cases st t.symbol t.price t.volume t.timestamp u with
      h1 | ⟨h1, h2⟩ | ⟨h1, h2⟩
    · rw [h1]; exact h
    · rw [h1]
      simp only [Set.mem_insert_iff, Set.mem_singleton_iff] at h ⊢
      rcases h with h | h | h <;> rw [h] <;> omega
    · rw [h1]
      simp only [Set.mem_insert_iff, Set.mem_singleton_iff] at h ⊢
      rcases h with h | h | h <;> rw [h] <;> omega

/-- `run` never changes the lookback. -/
theorem run_lookback (ts : List Tick) : ∀ st : LocoHFTStrategy,
    (run st ts).lookback = st.lookback := by
  induction ts with
  | nil => intro st; rfl
  | cons t ts ih =>
    intro st
    show (run ((on_market_data st t.symbol t.price t.volume t.timestamp).1) ts).lookback = _
    rw [ih, omd_lookback]


theorem omd_insufficient_iff (st : LocoHFTStrategy) (s : String) (p v : ℚ) (t : ℤ) :
    (on_market_data st s p v t).2 = .insufficient ↔
      (nextWindow st s p).length < st.lookback := by
  simp only [on_market_data]
  split_ifs with h1 h2 h3 <;> simp [h1]

theorem eq_zero_of_sum_eq_zero (l : List ℚ) (hnn : ∀ y ∈ l, 0 ≤ y) (hs : l.sum = 0) :
    ∀ y ∈ l, y = 0 := by
  induction l with
  | nil => intro y hy; cases hy
  | cons a l ih =>
    rw [List.sum_cons] at hs
    have ha : 0 ≤ a := hnn a (List.mem_cons_self a l)
    have hl : 0 ≤ l.sum := List.sum_nonneg (fun y hy => hnn y (List.mem_cons_of_mem a hy))
    have ha0 : a = 0 := by linarith
    have hl0 : l.sum = 0 := by linarith
    intro y hy
    rcases List.mem_cons.mp hy with rfl | hy
    · exact ha0
    · exact ih (fun y hy => hnn y (List.mem_cons_of_mem a hy)) hl0 y hy

theorem eq_sma_of_variance_eq_zero (w : List ℚ) (h0 : 0 < w.length)
    (hv : variance w = 0) : ∀ x ∈ w, x = sma w := by
  unfold variance at hv
  have hlen : ((w.length : ℚ)) ≠ 0 := by
    exact_mod_cast Nat.pos_iff_ne_zero.mp h0
  have hsum : (w.map (fun p => (p - sma w) ^ 2)).sum = 0 := by
    rcases div_eq_zero_iff.mp hv with h | h
    · exact h
    · exact absurd h hlen
  intro x hx
  have hterm : (x - sma w) ^ 2 = 0 := by
    refine eq_zero_of_sum_eq_zero _ ?_ hsum _ ?_
    · intro y hy
      simp only [List.mem_map] at hy
      obtain ⟨q, _, rfl⟩ := hy
      positivity
    · exact List.mem_map.mpr ⟨x, hx, rfl⟩
  have := pow_eq_zero_iff (n := 2) (by norm_num) |>.mp hterm
  linarith [sub_eq_zero.mp this]

theorem mem_nextWindow_self (st : LocoHFTStrategy) (s : String) (p : ℚ)
    (h : 0 < (nextWindow st s p).length) : p ∈ nextWindow st s p := by
  simp only [nextWindow] at h ⊢
  split_ifs at h ⊢ with hc
  · cases hol : st.price_history s with
    | nil =>
      rw [hol] at h
      simp at h
    | cons a l =>
      rw [List.cons_append, List.tail_cons]
      exact List.mem_append.mpr (Or.inr (List.mem_singleton.mpr rfl))
  · exact List.mem_append.mpr (Or.inr (List.mem_singleton.mpr rfl))


/-- C8: `on_risk_update` returns `false` iff `var95 > capital * 0.02`
(the boundary `var95 = capital * 0.02` returns `true`), it does not
depend on `exposure`, and it changes no engine state. -/
theorem c8_risk_gate (st : LocoHFTStrategy) (var_95 exposure : ℚ) :
    ((on_risk_update st var_95 exposure).2 = false ↔ st.capital * (2/100) < var_95) ∧
    (on_risk_update st var_95 exposure).1 = st ∧
    (∀ exposure' : ℚ, (on_risk_update st var_95 exposure').2 =
      (on_risk_update st var_95 exposure).2) ∧
    (on_risk_update st (st.capital * (2/100)) exposure).2 = true := by
  unfold on_risk_update
  refine ⟨?_, ?_, ?_, ?_⟩
  · split_ifs with h <;> simp [h]
  · split_ifs <;> rfl
  · intro e'
    split_ifs <;> rfl
  · rw [if_neg (lt_irrefl _)]

/-- C9: `calculate_portfolio_weights` returns `n` copies of `1/n` for an
`n`-row input with `n > 0`, and fails with the division-by-zero error on
a 0-row input. -/
theorem c9_equal_weights (st : LocoHFTStrategy) (returns_data : List (List ℚ)) :
    (0 < returns_data.length →
      calculate_portfolio_weights st returns_data =
        .ok (List.replicate returns_data.length (1 / (returns_data.length : ℚ)))) ∧
    (returns_data.length = 0 →
      calculate_portfolio_weights st returns_data = .error "ZeroDivisionError") := by
  unfold calculate_portfolio_weights
  constructor
  · intro h
    rw [if_neg (by omega)]
  · intro h
    rw [if_pos h]

/-- Witness for C9 at the 4-row input of the spec's example. -/
theorem c9_equal_weights_witness :
    0 < ([[1], [2], [3], [4]] : List (List ℚ)).length ∧
    calculate_portfolio_weights (init 100000) [[1], [2], [3], [4]] =
      .ok [1/4, 1/4, 1/4, 1/4] := by
  refine ⟨by norm_num, ?_⟩
  have h := (c9_equal_weights (init 100000) [[1], [2], [3], [4]]).1 (by norm_num)
  rw [h]
  norm_num [List.replicate]

/-- C2: over a full window of `N > 0` prices, the mean is the arithmetic
mean, the variance is the population variance (divisor `N`), the
standard deviation is the non-negative square root of the variance, and
the bands sit at mean ± 2 standard deviations. -/
theorem c2_band_statistics (w : List ℚ) (N : ℕ) (hN : w.length = N) (h0 : 0 < N) :
    sma w = w.sum / (N : ℚ) ∧
    variance w = ((w.map (fun p => (p - sma w) ^ 2)).sum) / (N : ℚ) ∧
    std w = Real.sqrt ((variance w : ℝ)) ∧
    std w ^ 2 = (variance w : ℝ) ∧ 0 ≤ std w ∧
    upper w = (sma w : ℝ) + 2 * std w ∧
    lower w = (sma w : ℝ) - 2 * std w := by
  subst hN
  exact ⟨rfl, rfl, rfl, sq_std w, std_nonneg w, rfl, rfl⟩

/-- Witness for C2 at the window [1, 2, 3]. -/
theorem c2_band_statistics_witness :
    ([1, 2, 3] : List ℚ).length = 3 ∧ 0 < 3 ∧
    (sma [1, 2, 3] = ([1, 2, 3] : List ℚ).sum / ((3 : ℕ) : ℚ) ∧
     variance [1, 2, 3] =
       (([1, 2, 3] : List ℚ).map (fun p => (p - sma [1, 2, 3]) ^ 2)).sum / ((3 : ℕ) : ℚ) ∧
     std [1, 2, 3] = Real.sqrt ((variance [1, 2, 3] : ℝ)) ∧
     std [1, 2, 3] ^ 2 = (variance [1, 2, 3] : ℝ) ∧ 0 ≤ std [1, 2, 3] ∧
     upper [1, 2, 3] = (sma [1, 2, 3] : ℝ) + 2 * std [1, 2, 3] ∧
     lower [1, 2, 3] = (sma [1, 2, 3] : ℝ) - 2 * std [1, 2, 3]) :=
  ⟨rfl, by norm_num, c2_band_statistics [1, 2, 3] 3 rfl (by norm_num)⟩

/-- C5: starting from a fresh engine, every symbol's window is exactly
the `lookback`-suffix (= 20, the fresh engine's lookback) of the prices
fed for that symbol, in arrival order; its length is
`min (ticks seen) 20` and never exceeds 20. -/
theorem c5_window_fifo (c : ℚ) (ts : List Tick) (u : String) :
    (run (init c) ts).price_history u = lastN 20 (pricesOf u ts) ∧
    ((run (init c) ts).price_history u).length = min (pricesOf u ts).length 20 ∧
    ((run (init c) ts).price_history u).length ≤ 20 := by
  have h := run_history ts (init c) (fun _ => []) (fun v => by simp [init, lastN]) u
  have h1 : (run (init c) ts).price_history u = lastN 20 (pricesOf u ts) := by
    simpa [init] using h
  refine ⟨h1, ?_, ?_⟩
  · rw [h1, lastN_length]
  · rw [h1, lastN_length]
    omega

/-- C10: starting from a fresh engine, every position stays in
{−100, 0, 100}; in particular its magnitude never exceeds 100. -/
theorem c10_position_bounds (c : ℚ) (ts : List Tick) (u : String) :
    (run (init c) ts).positions u ∈ ({-100, 0, 100} : Set ℤ) ∧
    ((run (init c) ts).positions u).natAbs ≤ 100 := by
  have h := run_positions_mem ts (init c) u (by simp [init])
  refine ⟨h, ?_⟩
  simp only [Set.mem_insert_iff, Set.mem_singleton_iff] at h
  rcases h with h | h | h <;> rw [h] <;> decide

/-- C3: from a fresh engine, a call for symbol `u` reports
`insufficient` (no statistics, no signal) exactly while the number of
ticks seen for `u`, including the current one, is below the lookback
(20): the first 19 calls are insufficient regardless of prices, and from
the 20th call on statistics are computed. -/
theorem c3_insufficient_until_lookback (c : ℚ) (ts : List Tick) (u : String)
    (p v : ℚ) (t : ℤ) :
    ((on_market_data (run (init c) ts) u p v t).2 = .insufficient ↔
      (pricesOf u ts).length + 1 < 20) := by
  have hlb : (run (init c) ts).lookback = 20 := run_lookback ts (init c)
  have hw : (run (init c) ts).price_history u = lastN 20 (pricesOf u ts) := by
    simpa [init] using run_history ts (init c) (fun _ => []) (fun v => by simp [init, lastN]) u
  have hnw : nextWindow (run (init c) ts) u p = lastN 20 (pricesOf u ts ++ [p]) := by
    have := nextWindow_lastN (run (init c) ts) u p (pricesOf u ts) (by rw [hw, hlb])
    rwa [hlb] at this
  rw [omd_insufficient_iff, hlb, hnw, lastN_length]
  simp only [List.length_append, List.length_cons, List.length_nil]
  omega


/-- C1: with a full post-append window and positive standard deviation,
a tick strictly below the lower band with position ≤ 0 yields a BUY
signal (size 100, tick price, confidence 0.8, metadata mean and
z-score) and raises the position by exactly 100; a tick strictly above
the upper band with position ≥ 0 yields the corresponding SELL signal
and lowers the position by exactly 100; otherwise no signal is emitted
and the position is unchanged. -/
theorem c1_signal_rules (st : LocoHFTStrategy) (s : String) (p v : ℚ) (t : ℤ)
    (hfull : (nextWindow st s p).length = st.lookback)
    (hstd : 0 < std (nextWindow st s p)) :
    (belowLower (nextWindow st s p) p ∧ st.positions s ≤ 0 →
      (on_market_data st s p v t).2 =
        .signal { action := "BUY", size := 100, price := p, confidence := 8/10,
                  sma := sma (nextWindow st s p),
                  z_score := zScore (nextWindow st s p) p } ∧
      (on_market_data st s p v t).1.positions s = st.positions s + 100) ∧
    (aboveUpper (nextWindow st s p) p ∧ 0 ≤ st.positions s →
      (on_market_data st s p v t).2 =
        .signal { action := "SELL", size := 100, price := p, confidence := 8/10,
                  sma := sma (nextWindow st s p),
                  z_score := zScore (nextWindow st s p) p } ∧
      (on_market_data st s p v t).1.positions s = st.positions s - 100) ∧
    (¬ (belowLower (nextWindow st s p) p ∧ st.positions s ≤ 0) ∧
     ¬ (aboveUpper (nextWindow st s p) p ∧ 0 ≤ st.positions s) →
      (on_market_data st s p v t).2 = .noSignal ∧
      (on_market_data st s p v t).1.positions s = st.positions s) := by
  have h1 : ¬ (nextWindow st s p).length < st.lookback := by omega
  refine ⟨?_, ?_, ?_⟩
  · rintro ⟨hb, hp⟩
    rw [omd_buy st s p v t h1 hb hp]
    exact ⟨rfl, Function.update_same s (st.positions s + 100) st.positions⟩
  · rintro ⟨ha, hp⟩
    have hnb : ¬ (belowLower (nextWindow st s p) p ∧ st.positions s ≤ 0) :=
      fun hc => not_belowLower_of_aboveUpper _ _ ha hc.1
    rw [omd_sell st s p v t h1 hnb ha hp]
    exact ⟨rfl, Function.update_same s (st.positions s - 100) st.positions⟩
  · rintro ⟨hnb, hna⟩
    rw [omd_noSignal st s p v t h1 hnb hna]
    exact ⟨rfl, rfl⟩

/-- Witness for C1: the state `stC1` (flat position, window
[100, 100, 100, 100, 100], lookback 6) with tick price 90 breaches the
lower band and produces the BUY outcome. -/
theorem c1_signal_rules_witness :
    (nextWindow stC1 "X" 90).length = stC1.lookback ∧
    0 < std (nextWindow stC1 "X" 90) ∧
    belowLower (nextWindow stC1 "X" 90) 90 ∧ stC1.positions "X" ≤ 0 ∧
    ((on_market_data stC1 "X" 90 0 0).2 =
      .signal { action := "BUY", size := 100, price := 90, confidence := 8/10,
                sma := sma (nextWindow stC1 "X" 90),
                z_score := zScore (nextWindow stC1 "X" 90) 90 } ∧
     (on_market_data stC1 "X" 90 0 0).1.positions "X" = stC1.positions "X" + 100) := by
  have hnw : nextWindow stC1 "X" 90 = [100, 100, 100, 100, 100, 90] := rfl
  have hfull : (nextWindow stC1 "X" 90).length = stC1.lookback := rfl
  have hstd : 0 < std (nextWindow stC1 "X" 90) := by
    rw [hnw, std_pos_iff]
    norm_num [variance, sma]
  have hb : belowLower (nextWindow stC1 "X" 90) 90 := by
    rw [hnw, belowLower_iff]
    norm_num [sma, variance]
  have hp : stC1.positions "X" ≤ 0 := le_refl 0
  exact ⟨hfull, hstd, hb, hp,
    (c1_signal_rules stC1 "X" 90 0 0 hfull hstd).1 ⟨hb, hp⟩⟩


/-- C4: when the full window has zero standard deviation (e.g. a
constant price stream), the appended tick price equals the window mean,
neither band can be breached, no signal is emitted, and no position
changes — the z-score division by `std` is never reached. -/
theorem c4_degenerate_variance (st : LocoHFTStrategy) (s : String) (p v : ℚ) (t : ℤ)
    (hlb : 0 < st.lookback)
    (hfull : (nextWindow st s p).length = st.lookback)
    (hstd : std (nextWindow st s p) = 0) :
    (on_market_data st s p v t).2 = .noSignal ∧
    (on_market_data st s p v t).1.positions = st.positions := by
  have h0 : 0 < (nextWindow st s p).length := by omega
  have hv : variance (nextWindow st s p) = 0 := (std_eq_zero_iff _).mp hstd
  have hps : p = sma (nextWindow st s p) :=
    eq_sma_of_variance_eq_zero _ h0 hv p (mem_nextWindow_self st s p h0)
  have hnb : ¬ belowLower (nextWindow st s p) p := by
    rw [belowLower_iff]
    rintro ⟨hc, -⟩
    rw [← hps] at hc
    simp at hc
  have hna : ¬ aboveUpper (nextWindow st s p) p := by
    rw [aboveUpper_iff]
    rintro ⟨hc, -⟩
    rw [← hps] at hc
    simp at hc
  have h1 : ¬ (nextWindow st s p).length < st.lookback := by omega
  rw [omd_noSignal st s p v t h1 (fun hc => hnb hc.1) (fun hc => hna hc.1)]
  exact ⟨rfl, rfl⟩

/-- Witness for C4: state `stW` (position −100, stored window [7, 7],
lookback 3) fed a third tick at price 7: a constant full window, zero
standard deviation, no signal, position untouched. -/
theorem c4_degenerate_variance_witness :
    0 < stW.lookback ∧
    (nextWindow stW "X" 7).length = stW.lookback ∧
    std (nextWindow stW "X" 7) = 0 ∧
    ((on_market_data stW "X" 7 0 0).2 = .noSignal ∧
     (on_market_data stW "X" 7 0 0).1.positions = stW.positions) := by
  have hnw : nextWindow stW "X" 7 = [7, 7, 7] := rfl
  have hlb : 0 < stW.lookback := by norm_num [stW]
  have hfull : (nextWindow stW "X" 7).length = stW.lookback := rfl
  have hstd : std (nextWindow stW "X" 7) = 0 := by
    rw [hnw, std_eq_zero_iff]
    norm_num [variance, sma]
  exact ⟨hlb, hfull, hstd, c4_degenerate_variance stW "X" 7 0 0 hlb hfull hstd⟩

/-- C6 (amended): with a full window, positive standard deviation and a
price strictly below the lower band, a strictly LONG position (> 0)
blocks the BUY branch (which requires position ≤ 0): no signal is
emitted and the position is unchanged. -/
theorem c6_long_blocks_buy (st : LocoHFTStrategy) (s : String) (p v : ℚ) (t : ℤ)
    (hpos : 0 < st.positions s)
    (hfull : (nextWindow st s p).length = st.lookback)
    (hstd : 0 < std (nextWindow st s p))
    (hb : belowLower (nextWindow st s p) p) :
    (on_market_data st s p v t).2 = .noSignal ∧
    (on_market_data st s p v t).1.positions s = st.positions s := by
  have h1 : ¬ (nextWindow st s p).length < st.lookback := by omega
  have hnb : ¬ (belowLower (nextWindow st s p) p ∧ st.positions s ≤ 0) :=
    fun hc => absurd hpos (not_lt.mpr hc.2)
  have hna : ¬ (aboveUpper (nextWindow st s p) p ∧ 0 ≤ st.positions s) :=
    fun hc => not_aboveUpper_of_belowLower _ _ hb hc.1
  rw [omd_noSignal st s p v t h1 hnb hna]
  exact ⟨rfl, rfl⟩

/-- The `stX` scenario (LONG position 100, window
[100, 100, 100, 100, 100], lookback 6, tick price 90): the tick price is
strictly below the lower band of the full 6-price window. -/
theorem stX_breach_facts :
    0 < stX.positions "X" ∧
    (nextWindow stX "X" 90).length = stX.lookback ∧
    0 < std (nextWindow stX "X" 90) ∧
    belowLower (nextWindow stX "X" 90) 90 := by
  have hnw : nextWindow stX "X" 90 = [100, 100, 100, 100, 100, 90] := rfl
  refine ⟨by norm_num [stX], rfl, ?_, ?_⟩
  · rw [hnw, std_pos_iff]
    norm_num [variance, sma]
  · rw [hnw, belowLower_iff]
    norm_num [sma, variance]

/-- Counterexample to C6 as stated: in the `stX` scenario the claim
predicts a BUY signal, but the code (line 53 requires position ≤ 0)
emits no signal and leaves the position at 100. -/
theorem c6_counterexample :
    0 < stX.positions "X" ∧
    (nextWindow stX "X" 90).length = stX.lookback ∧
    0 < std (nextWindow stX "X" 90) ∧
    belowLower (nextWindow stX "X" 90) 90 ∧
    (on_market_data stX "X" 90 0 0).2 = .noSignal ∧
    (on_market_data stX "X" 90 0 0).2 ≠
      .signal { action := "BUY", size := 100, price := 90, confidence := 8/10,
                sma := sma (nextWindow stX "X" 90),
                z_score := zScore (nextWindow stX "X" 90) 90 } ∧
    (on_market_data stX "X" 90 0 0).1.positions "X" = 100 := by
  obtain ⟨hpos, hfull, hstd, hb⟩ := stX_breach_facts
  have h1 : ¬ (nextWindow stX "X" 90).length < stX.lookback := by omega
  have hnb : ¬ (belowLower (nextWindow stX "X" 90) 90 ∧ stX.positions "X" ≤ 0) :=
    fun hc => absurd hpos (not_lt.mpr hc.2)
  have hna : ¬ (aboveUpper (nextWindow stX "X" 90) 90 ∧ 0 ≤ stX.positions "X") :=
    fun hc => not_aboveUpper_of_belowLower _ _ hb hc.1
  rw [omd_noSignal stX "X" 90 0 0 h1 hnb hna]
  exact ⟨hpos, hfull, hstd, hb, rfl, fun hc => Outcome.noConfusion hc, rfl⟩

/-- Witness for the amended C6 at the `stX` scenario. -/
theorem c6_long_blocks_buy_witness :
    0 < stX.positions "X" ∧
    (nextWindow stX "X" 90).length = stX.lookback ∧
    0 < std (nextWindow stX "X" 90) ∧
    belowLower (nextWindow stX "X" 90) 90 ∧
    ((on_market_data stX "X" 90 0 0).2 = .noSignal ∧
     (on_market_data stX "X" 90 0 0).1.positions "X" = stX.positions "X") := by
  obtain ⟨hpos, hfull, hstd, hb⟩ := stX_breach_facts
  exact ⟨hpos, hfull, hstd, hb,
    c6_long_blocks_buy stX "X" 90 0 0 hpos hfull hstd hb⟩


theorem not_belowLower_98 : ¬ belowLower [100, 102, 98] 98 := by
  rw [belowLower_iff]
  norm_num [sma, variance]

theorem not_aboveUpper_98 : ¬ aboveUpper [100, 102, 98] 98 := by
  rw [aboveUpper_iff]
  norm_num [sma, variance]

theorem not_belowLower_80 : ¬ belowLower [102, 98, 80] 80 := by
  rw [belowLower_iff]
  norm_num [sma, variance]

theorem not_aboveUpper_80 : ¬ aboveUpper [102, 98, 80] 80 := by
  rw [aboveUpper_iff]
  norm_num [sma, variance]

theorem stepY1 : on_market_data stY0 "Y" 100 0 0 = (stY1, .insufficient) :=
  omd_insufficient stY0 "Y" 100 0 0 (by decide)

theorem stepY2 : on_market_data stY1 "Y" 102 0 1 = (stY2, .insufficient) :=
  omd_insufficient stY1 "Y" 102 0 1 (by decide)

theorem stepY3 : on_market_data stY2 "Y" 98 0 2 = (stY3, .noSignal) := by
  have hnw : nextWindow stY2 "Y" 98 = [100, 102, 98] := rfl
  refine omd_noSignal stY2 "Y" 98 0 2 (by decide) ?_ ?_
  · intro hc
    exact not_belowLower_98 (hnw ▸ hc.1)
  · intro hc
    exact not_aboveUpper_98 (hnw ▸ hc.1)

theorem stepY4 : on_market_data stY3 "Y" 80 0 3 = (stY4, .noSignal) := by
  have hnw : nextWindow stY3 "Y" 80 = [102, 98, 80] := rfl
  refine omd_noSignal stY3 "Y" 80 0 3 (by decide) ?_ ?_
  · intro hc
    exact not_belowLower_80 (hnw ▸ hc.1)
  · intro hc
    exact not_aboveUpper_80 (hnw ▸ hc.1)

theorem runY_eval :
    runOutcomes stY0 ticksY =
      (stY4, [.insufficient, .insufficient, .noSignal, .noSignal]) := by
  simp only [runOutcomes, ticksY, stepY1, stepY2, stepY3, stepY4]


/-- C7 (amended): the constructor takes no lookback parameter and fixes
lookback = 20; for an engine whose lookback field holds 3 and capital
100000, the prices [100, 102, 98, 80] for symbol "Y" give: two
Insufficient calls, then statistics are computed from the 3rd call on
(the window reaches the lookback on that call); on the 4th call the
window is [102, 98, 80] (80 is appended and 100 evicted before
statistics), with mean 280/3 ≈ 93.33 and variance 824/9, the price 80
is not below the lower band, no signal is ever emitted, and the
position stays 0. -/
theorem c7_lookback3_example :
    (init 100000).lookback = 20 ∧
    (runOutcomes stY0 ticksY).2 =
      [.insufficient, .insufficient, .noSignal, .noSignal] ∧
    (runOutcomes stY0 ticksY).1.positions "Y" = 0 ∧
    nextWindow stY3 "Y" 80 = [102, 98, 80] ∧
    sma [102, 98, 80] = 280/3 ∧
    variance [102, 98, 80] = 824/9 ∧
    ¬ belowLower [102, 98, 80] 80 := by
  refine ⟨rfl, ?_, ?_, rfl, ?_, ?_, not_belowLower_80⟩
  · rw [runY_eval]
  · rw [runY_eval]
    rfl
  · norm_num [sma]
  · norm_num [variance, sma]


/-- Counterexample to C7 as stated: the constructor admits no lookback
argument (it always sets 20), and even with the lookback field set to 3
the 3rd call already computes statistics (it is not Insufficient), the
4th call (price 80, window [102, 98, 80], mean 280/3 not 100) emits no
BUY, and the position ends at 0, not 100. -/
theorem c7_counterexample :
    (init 100000).lookback = 20 ∧
    (runOutcomes stY0 ticksY).2.get? 2 = some .noSignal ∧
    (runOutcomes stY0 ticksY).2.get? 2 ≠ some .insufficient ∧
    (runOutcomes stY0 ticksY).2.get? 3 = some .noSignal ∧
    (runOutcomes stY0 ticksY).1.positions "Y" = 0 ∧
    (runOutcomes stY0 ticksY).1.positions "Y" ≠ 100 ∧
    sma (nextWindow stY3 "Y" 80) ≠ 100 := by
  rw [runY_eval]
  refine ⟨rfl, rfl, ?_, rfl, rfl, by decide, ?_⟩
  · intro hc
    have := Option.some.inj hc
    exact Outcome.noConfusion this
  · have hnw : nextWindow stY3 "Y" 80 = [102, 98, 80] := rfl
    rw [hnw]
    norm_num [sma]

end LocoHFT
